import Mathlib

/-!
Shallow embedding of the staged training pipeline in
MegaPortraits/scripts/train.py: the disk-backed intermediate store
(utils.intermediate save_intermediate/load_intermediate), the chunked
stage runner and reassembler inside Trainer.train_base_model, the pair
sampler, the checkpoint manager, the epoch loop, and a small reverse-mode
gradient model for the detach-isolation property.

Tensors are modelled as Lists: a flat frame batch of shape
(batch*frames, C, H, W) is a List of frames; the (batch, frames, ...)
view is a List of Lists with uniform inner length.
-/

/-- The disk-backed intermediate store: a key/value map, keyed by chunk
descriptor.  Writing to an existing key overwrites the file, exactly as
save_intermediate does. -/
def Store (κ β : Type) : Type := κ → Option β

/-- A store with no artifacts persisted yet. -/
def Store.empty {κ β : Type} : Store κ β := fun _ => none

/-- save_intermediate: persist a tensor under a key (overwriting). -/
def Store.put {κ β : Type} [DecidableEq κ] (s : Store κ β) (k : κ) (v : β) : Store κ β :=
  fun q => if q = k then some v else s q

/-- load_intermediate: read a tensor back; a missing file is a failure. -/
def Store.get {κ β : Type} (s : Store κ β) (k : κ) : Option β := s k

/-- Split a flat frame sequence into contiguous slices of size cs, the
last slice possibly shorter: the slices target[i:i+chunk_size] produced
by `for i in range(0, target.size(0), chunk_size)` (train.py line 214),
listed in ascending chunk-index order. -/
def chunkList {α : Type} (cs : Nat) (l : List α) : List (List α) :=
  if _h1 : cs = 0 then []
  else if _h2 : l.isEmpty then []
  else l.take cs :: chunkList cs (l.drop cs)
termination_by l.length
decreasing_by
  have h1 : 0 < cs := Nat.pos_of_ne_zero _h1
  have h2 : 0 < l.length := by
    cases l with
    | nil => simp at _h2
    | cons a t => simp
  simp only [List.length_drop]
  omega

/-- The chunk-save loop of train.py lines 214-231: run the stage function
on each slice and persist the result under the chunk index
(`v_d_chunk_{i//chunk_size}`), counting keys upward from k. -/
def saveChunks {α β : Type} (f : List α → List β) (st : Store Nat (List β)) (k : Nat) :
    List (List α) → Store Nat (List β)
  | [] => st
  | c :: cl => saveChunks f (st.put k (f c)) (k + 1) cl

/-- The reload loop of train.py lines 233-240: read the artifacts for the
given keys back, in the order listed; any missing artifact fails the
whole load. -/
def loadChunks {κ β : Type} (st : Store κ β) : List κ → Option (List β)
  | [] => some []
  | k :: ks =>
    match st.get k with
    | none => none
    | some v => (loadChunks st ks).map (fun r => v :: r)

/-- The chunked stage runner (train.py lines 214-231) applied to a flat
frame sequence: persist every chunk of f over seq into the store. -/
def run_stage {α β : Type} (f : List α → List β) (seq : List α) (cs : Nat)
    (st : Store Nat (List β)) : Store Nat (List β) :=
  saveChunks f st 0 (chunkList cs seq)

/-- The reassembler (train.py lines 233-243): reload every chunk in
ascending chunk-index order and concatenate (`torch.cat(total_v_d, dim=0)`). -/
def reassemble {β : Type} (st : Store Nat (List β)) (numChunks : Nat) : Option (List β) :=
  (loadChunks st (List.range numChunks)).map List.flatten

/-- `target.view(batch_size * num_frames, ...)` (train.py line 201):
flatten the (batch, frames, ...) tensor to (batch*frames, ...). -/
def flattenBatch {α : Type} (x : List (List α)) : List α := x.flatten

/-- `v_d.view(batch_size, num_frames, *...)` (train.py line 244): regroup
the flat sequence into rows of numFrames frames. -/
def unflattenBatch {α : Type} (numFrames : Nat) (l : List α) : List (List α) :=
  chunkList numFrames l

/-- Chunk, persist, reload and reassemble a (batch, frames, ...) tensor
with a given stage function, then restore the (batch, frames, ...) view —
the full round trip of train.py lines 200-244. -/
def chunkRoundTrip {α β : Type} (f : List α → List β) (x : List (List α)) (cs : Nat)
    (numFrames : Nat) : Option (List (List β)) :=
  (reassemble (run_stage f (flattenBatch x) cs Store.empty)
    (chunkList cs (flattenBatch x)).length).map (unflattenBatch numFrames)

-- Basic lemmas about the store and the chunk machinery.

theorem Store.get_put_self {κ β : Type} [DecidableEq κ] (s : Store κ β) (k : κ) (v : β) :
    (s.put k v).get k = some v := by
  simp [Store.get, Store.put]

theorem Store.get_put_ne {κ β : Type} [DecidableEq κ] (s : Store κ β) (k q : κ) (v : β)
    (h : q ≠ k) : (s.put k v).get q = s.get q := by
  simp [Store.get, Store.put, h]

theorem saveChunks_get_lt {α β : Type} (f : List α → List β) :
    ∀ (cl : List (List α)) (st : Store Nat (List β)) (k q : Nat), q < k →
      (saveChunks f st k cl).get q = st.get q := by
  intro cl
  induction cl with
  | nil => intro st k q _; rfl
  | cons c cl ih =>
    intro st k q hq
    simp only [saveChunks]
    rw [ih (st.put k (f c)) (k + 1) q (by omega)]
    exact Store.get_put_ne st k q (f c) (by omega)

theorem saveChunks_get_self {α β : Type} (f : List α → List β) :
    ∀ (cl : List (List α)) (st : Store Nat (List β)) (k i : Nat) (h : i < cl.length),
      (saveChunks f st k cl).get (k + i) = some (f cl[i]) := by
  intro cl
  induction cl with
  | nil => intro st k i h; simp at h
  | cons c cl ih =>
    intro st k i h
    simp only [saveChunks]
    cases i with
    | zero =>
      rw [saveChunks_get_lt f cl (st.put k (f c)) (k + 1) (k + 0) (by omega)]
      simpa using Store.get_put_self st k (f c)
    | succ j =>
      have hj : j < cl.length := by simpa using h
      have := ih (st.put k (f c)) (k + 1) j hj
      simpa [Nat.add_assoc, Nat.add_comm 1 j] using this

theorem loadChunks_of_get {κ β : Type} (st : Store κ β) (g : κ → β) :
    ∀ (ks : List κ), (∀ k ∈ ks, st.get k = some (g k)) →
      loadChunks st ks = some (ks.map g) := by
  intro ks
  induction ks with
  | nil => intro _; rfl
  | cons k ks ih =>
    intro hall
    have hk : st.get k = some (g k) := hall k (List.mem_cons_self k ks)
    have hrest := ih (fun q hq => hall q (List.mem_cons_of_mem k hq))
    simp only [loadChunks, hk, hrest, List.map_cons]
    rfl

theorem map_getD_range {α : Type} (d : α) :
    ∀ (l : List α), (List.range l.length).map (fun i => l.getD i d) = l := by
  intro l
  induction l with
  | nil => rfl
  | cons x xs ih =>
    rw [List.length_cons, List.range_succ_eq_map]
    simp only [List.map_cons, List.map_map]
    have h1 : ((List.range xs.length).map ((fun i => (x :: xs).getD i d) ∘ (· + 1))) =
        (List.range xs.length).map (fun i => xs.getD i d) := by
      apply List.map_congr_left
      intro i _
      rfl
    rw [h1, ih]
    rfl

/-- After the save loop writes chunks 0..n-1, the reload loop finds every
chunk: reloading returns the stage outputs in original chunk order. -/
theorem loadChunks_saveChunks {α β : Type} (f : List α → List β) (cl : List (List α)) :
    loadChunks (saveChunks f Store.empty 0 cl) (List.range cl.length) =
      some (cl.map f) := by
  have hget : ∀ k ∈ List.range cl.length,
      (saveChunks f Store.empty 0 cl).get k = some ((fun i => f (cl.getD i [])) k) := by
    intro k hk
    have hk' : k < cl.length := List.mem_range.mp hk
    have h0 := saveChunks_get_self f cl Store.empty 0 k hk'
    simp only [Nat.zero_add] at h0
    rw [h0]
    congr 1
    exact congrArg f (List.getD_eq_getElem cl [] hk').symm
  rw [loadChunks_of_get _ _ _ hget]
  congr 1
  have h1 : (List.range cl.length).map (fun i => f (cl.getD i [])) =
      ((List.range cl.length).map (fun i => cl.getD i [])).map f := by
    simp [List.map_map, Function.comp]
  rw [h1, map_getD_range]

/-- Joining the chunks restores the original flat sequence. -/
theorem chunkList_flatten {α : Type} (cs : Nat) (hcs : 0 < cs) (l : List α) :
    (chunkList cs l).flatten = l := by
  have H : ∀ (n : Nat) (l : List α), l.length = n → (chunkList cs l).flatten = l := by
    intro n
    induction n using Nat.strong_induction_on with
    | _ n ih =>
      intro l hl
      rw [chunkList]
      by_cases h2 : l.isEmpty
      · have : l = [] := by
          cases l with
          | nil => rfl
          | cons a t => simp at h2
        simp [this]
      · have hcs0 : ¬cs = 0 := by omega
        rw [dif_neg hcs0, dif_neg h2]
        have hlpos : 0 < l.length := by
          cases l with
          | nil => simp at h2
          | cons a t => simp
        have hlt : (l.drop cs).length < n := by
          simp only [List.length_drop]
          omega
        rw [List.flatten_cons, ih (l.drop cs).length (by omega) (l.drop cs) rfl]
        exact List.take_append_drop cs l
  exact H l.length l rfl

/-- Chunking a concatenation of uniform length-f rows recovers the rows:
the .view(batch, frames, ...) inverse of flattening. -/
theorem chunkList_flatten_uniform {α : Type} (f : Nat) (hf : 0 < f) :
    ∀ (x : List (List α)), (∀ r ∈ x, r.length = f) →
      chunkList f x.flatten = x := by
  intro x
  induction x with
  | nil =>
    intro _
    rw [List.flatten_nil, chunkList]
    simp
  | cons r rest ih =>
    intro hall
    have hr : r.length = f := hall r (List.mem_cons_self r rest)
    have hne : (r ++ rest.flatten).isEmpty = false := by
      cases hcase : r ++ rest.flatten with
      | nil =>
        have : r = [] := by
          cases r with
          | nil => rfl
          | cons a l => simp at hcase
        rw [this] at hr
        simp at hr
        omega
      | cons a t => rfl
    rw [List.flatten_cons, chunkList]
    have hf0 : ¬f = 0 := by omega
    have hne2 : ¬((r ++ rest.flatten).isEmpty = true) := by simp [hne]
    rw [dif_neg hf0, dif_neg hne2]
    have htake : (r ++ rest.flatten).take f = r := by
      rw [← hr]; exact List.take_left r rest.flatten
    have hdrop : (r ++ rest.flatten).drop f = rest.flatten := by
      rw [← hr]; exact List.drop_left r rest.flatten
    rw [htake, hdrop, ih (fun s hs => hall s (List.mem_cons_of_mem r hs))]

/-- C1: Chunk/reassemble round trip — for every (batch, frames, ...)
input with at least one frame in total and every chunk_size in [1, N]
(N the flattened length), splitting into contiguous chunk_size slices,
persisting each slice's stage output, reloading all chunks in ascending
chunk-index order, concatenating, and restoring the (batch, frames, ...)
view yields exactly the original sequence when the stage function is the
identity: order- and shape-preserving. -/
theorem chunk_reassemble_round_trip {α : Type} (x : List (List α)) (numFrames cs : Nat)
    (hf : 0 < numFrames) (hrows : ∀ r ∈ x, r.length = numFrames)
    (hN : 1 ≤ (flattenBatch x).length) (hcs1 : 1 ≤ cs) (hcs2 : cs ≤ (flattenBatch x).length) :
    chunkRoundTrip id x cs numFrames = some x := by
  unfold chunkRoundTrip run_stage reassemble
  rw [loadChunks_saveChunks]
  show some (unflattenBatch numFrames
    (List.flatten (List.map id (chunkList cs (flattenBatch x))))) = some x
  rw [List.map_id, chunkList_flatten cs (by omega) (flattenBatch x)]
  unfold unflattenBatch flattenBatch
  rw [chunkList_flatten_uniform numFrames hf x hrows]

/-- Witness for C1 at a concrete input: batch 2, 3 frames per row,
chunk_size 2 over the 6-frame flat sequence. -/
theorem chunk_reassemble_round_trip_witness :
    (0 : Nat) < 3 ∧ chunkRoundTrip id [[10, 20, 30], [40, 50, 60]] 2 3 =
      some [[10, 20, 30], [40, 50, 60]] :=
  ⟨by decide,
   chunk_reassemble_round_trip [[10, 20, 30], [40, 50, 60]] 3 2 (by decide)
     (by decide) (by decide) (by decide) (by decide)⟩

/-- Outcome of the reassembly guard in train.py lines 242-319: when the
loaded chunk list is non-empty, the iteration proceeds with the
concatenated tensor; when it is empty, the code only prints
"Error: total_v_d is empty, unable to concatenate tensors." and returns
normally, raising nothing; a missing artifact fails the load itself. -/
inductive ReassemblyOutcome (β : Type)
  | proceeded (v_d : List β)
  | printedEmptyError
  | loadFailure
deriving DecidableEq

/-- The reassembly phase of train_base_model (train.py lines 233-243 and
318-319): reload all chunks, then branch on `if total_v_d:`. -/
def trainBaseReassembly {β : Type} (st : Store Nat (List β)) (numChunks : Nat) :
    ReassemblyOutcome β :=
  match loadChunks st (List.range numChunks) with
  | none => .loadFailure
  | some total_v_d =>
    if total_v_d.isEmpty then .printedEmptyError
    else .proceeded total_v_d.flatten

/-- The whole chunk-save / reload / guard path of train_base_model
applied to a flat frame sequence. -/
def trainBaseChunkPhase {α β : Type} (f : List α → List β) (target : List α) (cs : Nat) :
    ReassemblyOutcome β :=
  trainBaseReassembly (run_stage f target cs Store.empty) (chunkList cs target).length

/-- C2: claimed behavior is raising ReassemblyError on an empty chunk
list; the code instead prints an error message and returns normally.
Evaluated at the failing input (a zero-frame sequence, which produces
zero chunks), the reassembly guard yields the printed-error outcome —
no exception is raised and the surrounding epoch loop continues. -/
theorem empty_reassembly_prints_and_continues :
    trainBaseChunkPhase (fun c => c) ([] : List Nat) 100 =
      ReassemblyOutcome.printedEmptyError := by
  have hchunk : chunkList 100 ([] : List Nat) = [] := by
    rw [chunkList]
    simp
  simp [trainBaseChunkPhase, run_stage, trainBaseReassembly, hchunk, saveChunks, loadChunks]

structure SampleInfo where
  source : String
  driving : String
deriving DecidableEq

/-- The pair sampler (train.py lines 181-184): even iterations index the
same-person pool, odd iterations the different-person pool, both at
index (iteration mod pool length).  Python indexing into an empty pool
would fail (mod by zero); that failure is modelled as none. -/
def selectPair (same diff : List SampleInfo) (iteration : Nat) : Option SampleInfo :=
  if iteration % 2 = 0 then same[iteration % same.length]?
  else diff[iteration % diff.length]?

/-- C6: Pair Sampler selection and determinism — with both pools
non-empty, iteration i selects same_person_pairs[i mod len] when i is
even and different_person_pairs[i mod len] when i is odd; the selection
is a pure function of i (two reads agree) and the pool index is always
in bounds. -/
theorem pair_sampler_selection (same diff : List SampleInfo) (i : Nat)
    (hs : same ≠ []) (hd : diff ≠ []) :
    (i % 2 = 0 → selectPair same diff i =
      some (same.get ⟨i % same.length, Nat.mod_lt i (List.length_pos.mpr hs)⟩))
    ∧ (i % 2 ≠ 0 → selectPair same diff i =
      some (diff.get ⟨i % diff.length, Nat.mod_lt i (List.length_pos.mpr hd)⟩))
    ∧ (∀ r₁ r₂ : Option SampleInfo, selectPair same diff i = r₁ →
        selectPair same diff i = r₂ → r₁ = r₂)
    ∧ i % same.length < same.length ∧ i % diff.length < diff.length := by
  refine ⟨?_, ?_, ?_, ?_, ?_⟩
  · intro hpar
    rw [selectPair, if_pos hpar,
      List.getElem?_eq_getElem (Nat.mod_lt i (List.length_pos.mpr hs))]
    rfl
  · intro hpar
    rw [selectPair, if_neg hpar,
      List.getElem?_eq_getElem (Nat.mod_lt i (List.length_pos.mpr hd))]
    rfl
  · intro r₁ r₂ h₁ h₂
    rw [← h₁, ← h₂]
  · exact Nat.mod_lt i (List.length_pos.mpr hs)
  · exact Nat.mod_lt i (List.length_pos.mpr hd)

/-- Witness for C6 at concrete pools and iterations 2 (even) and 3
(odd). -/
theorem pair_sampler_selection_witness :
    selectPair [⟨"s1", "d1"⟩] [⟨"s2", "d2"⟩, ⟨"s3", "d3"⟩] 2 = some ⟨"s1", "d1"⟩ ∧
    selectPair [⟨"s1", "d1"⟩] [⟨"s2", "d2"⟩, ⟨"s3", "d3"⟩] 3 = some ⟨"s3", "d3"⟩ := by
  constructor
  · have h := (pair_sampler_selection [⟨"s1", "d1"⟩] [⟨"s2", "d2"⟩, ⟨"s3", "d3"⟩] 2
      (by decide) (by decide)).1 (by decide)
    simpa using h
  · have h := (pair_sampler_selection [⟨"s1", "d1"⟩] [⟨"s2", "d2"⟩, ⟨"s3", "d3"⟩] 3
      (by decide) (by decide)).2.1 (by decide)
    simpa using h

/-- The motion encoder applied to a chunk: a 3-tuple (rotation,
translation, latent code), computed per frame, so each component has one
entry per frame of the chunk. -/
def motion_stage {α β : Type} (f g h : α → β) (c : List α) :
    List β × List β × List β :=
  (c.map f, c.map g, c.map h)

/-- Component j of a motion-encoder tuple (j = 0, 1, 2). -/
def tupleComp {β : Type} (j : Nat) (e : List β × List β × List β) : List β :=
  if j = 0 then e.1 else if j = 1 then e.2.1 else e.2.2

/-- The motion-encoder chunk-save loop (train.py lines 250-258): each
tuple element of each chunk is persisted under its own sub_index j, key
`e_d_chunk_{i//chunk_size}_{j}`, chunk keys counting upward from k. -/
def saveTupleChunks {α β : Type} (stage : List α → List β × List β × List β)
    (st : Store (Nat × Nat) (List β)) (k : Nat) :
    List (List α) → Store (Nat × Nat) (List β)
  | [] => st
  | c :: cl =>
    saveTupleChunks stage
      (((st.put (k, 0) (stage c).1).put (k, 1) (stage c).2.1).put (k, 2) (stage c).2.2)
      (k + 1) cl

/-- The motion-encoder reload and reassembly (train.py lines 260-271):
collect component j across all chunks in ascending chunk-index order and
concatenate each component, yielding the tuple (R_d, t_d, z_d). -/
def reassembleTuple {β : Type} (st : Store (Nat × Nat) (List β)) (numChunks : Nat) :
    Option (List β × List β × List β) :=
  match loadChunks st ((List.range numChunks).map (fun i => (i, 0))),
        loadChunks st ((List.range numChunks).map (fun i => (i, 1))),
        loadChunks st ((List.range numChunks).map (fun i => (i, 2))) with
  | some r, some t, some z => some (r.flatten, t.flatten, z.flatten)
  | _, _, _ => none

theorem saveTupleChunks_get_lt {α β : Type} (stage : List α → List β × List β × List β) :
    ∀ (cl : List (List α)) (st : Store (Nat × Nat) (List β)) (k q j : Nat), q < k →
      (saveTupleChunks stage st k cl).get (q, j) = st.get (q, j) := by
  intro cl
  induction cl with
  | nil => intro st k q j _; rfl
  | cons c cl ih =>
    intro st k q j hq
    simp only [saveTupleChunks]
    rw [ih _ (k + 1) q j (by omega)]
    have hne : ∀ j2 : Nat, ((q, j) : Nat × Nat) ≠ (k, j2) := by
      intro j2 hcontra
      have h1 := congrArg Prod.fst hcontra
      simp at h1
      omega
    rw [Store.get_put_ne _ _ _ _ (hne 2), Store.get_put_ne _ _ _ _ (hne 1),
      Store.get_put_ne _ _ _ _ (hne 0)]

theorem saveTupleChunks_get_self {α β : Type} (stage : List α → List β × List β × List β) :
    ∀ (cl : List (List α)) (st : Store (Nat × Nat) (List β)) (k i j : Nat)
      (h : i < cl.length), j < 3 →
      (saveTupleChunks stage st k cl).get (k + i, j) = some (tupleComp j (stage cl[i])) := by
  intro cl
  induction cl with
  | nil => intro st k i j h _; simp at h
  | cons c cl ih =>
    intro st k i j h hj
    simp only [saveTupleChunks]
    cases i with
    | zero =>
      rw [saveTupleChunks_get_lt stage cl _ (k + 1) (k + 0) j (by omega)]
      interval_cases j
      · simp [Store.get, Store.put, tupleComp]
      · simp [Store.get, Store.put, tupleComp]
      · simp [Store.get, Store.put, tupleComp]
    | succ m =>
      have hm : m < cl.length := by simpa using h
      have := ih (((st.put (k, 0) (stage c).1).put (k, 1) (stage c).2.1).put
        (k, 2) (stage c).2.2) (k + 1) m j hm hj
      simpa [Nat.add_assoc, Nat.add_comm 1 m] using this

theorem loadTupleComp {α β : Type} (stage : List α → List β × List β × List β)
    (cl : List (List α)) (j : Nat) (hj : j < 3) :
    loadChunks (saveTupleChunks stage Store.empty 0 cl)
        ((List.range cl.length).map (fun i => (i, j))) =
      some (cl.map (fun c => tupleComp j (stage c))) := by
  have hget : ∀ p ∈ (List.range cl.length).map (fun i => (i, j)),
      (saveTupleChunks stage Store.empty 0 cl).get p =
        some ((fun p : Nat × Nat => tupleComp p.2 (stage (cl.getD p.1 []))) p) := by
    intro p hp
    rcases List.mem_map.mp hp with ⟨i, hi, rfl⟩
    have hi' : i < cl.length := List.mem_range.mp hi
    have h0 := saveTupleChunks_get_self stage cl Store.empty 0 i j hi' hj
    simp only [Nat.zero_add] at h0
    rw [h0]
    have hsome : cl[i]? = some cl[i] := List.getElem?_eq_getElem hi'
    simp [hsome]
  rw [loadChunks_of_get _ _ _ hget]
  congr 1
  rw [List.map_map]
  have h1 : (List.range cl.length).map
      ((fun p : Nat × Nat => tupleComp p.2 (stage (cl.getD p.1 []))) ∘ (fun i => (i, j))) =
      ((List.range cl.length).map (fun i => cl.getD i [])).map
        (fun c => tupleComp j (stage c)) := by
    rw [List.map_map]
    apply List.map_congr_left
    intro i _
    rfl
  rw [h1, map_getD_range]

/-- C8: Tuple-arity preservation — for every input frame sequence and
chunk size, when the chunked stage returns a 3-tuple computed per frame
(rotation, translation, latent code), each tuple element of each chunk
is persisted under its own sub_index, and the reassembled result is a
3-tuple equal (in particular equal in shape, component by component) to
the non-chunked reference computation motion_stage f g h seq. -/
theorem tuple_arity_preservation {α β : Type} (f g h : α → β) (seq : List α) (cs : Nat)
    (hcs : 0 < cs) :
    reassembleTuple
        (saveTupleChunks (motion_stage f g h) Store.empty 0 (chunkList cs seq))
        (chunkList cs seq).length =
      some (motion_stage f g h seq) := by
  rw [reassembleTuple,
    loadTupleComp (motion_stage f g h) (chunkList cs seq) 0 (by omega),
    loadTupleComp (motion_stage f g h) (chunkList cs seq) 1 (by omega),
    loadTupleComp (motion_stage f g h) (chunkList cs seq) 2 (by omega)]
  show some (_, _, _) = _
  have hcomp : ∀ (j : Nat) (fj : α → β),
      (∀ c : List α, tupleComp j (motion_stage f g h c) = c.map fj) →
      ((chunkList cs seq).map (fun c => tupleComp j (motion_stage f g h c))).flatten =
        seq.map fj := by
    intro j fj hcj
    have : (chunkList cs seq).map (fun c => tupleComp j (motion_stage f g h c)) =
        (chunkList cs seq).map (List.map fj) := by
      apply List.map_congr_left
      intro c _
      exact hcj c
    rw [this, ← List.map_flatten, chunkList_flatten cs hcs seq]
  rw [hcomp 0 f (fun c => rfl), hcomp 1 g (fun c => rfl), hcomp 2 h (fun c => rfl)]
  rfl

/-- Witness for C8 at a concrete input: a 5-frame sequence, chunk size 2,
with three distinct per-frame component functions. -/
theorem tuple_arity_preservation_witness :
    (0 : Nat) < 2 ∧
    reassembleTuple
        (saveTupleChunks (motion_stage (fun n => n + 1) (fun n => n * 2) (fun n => n * n))
          Store.empty 0 (chunkList 2 [1, 2, 3, 4, 5]))
        (chunkList 2 [1, 2, 3, 4, 5]).length =
      some (motion_stage (fun n : Nat => n + 1) (fun n => n * 2) (fun n => n * n)
        [1, 2, 3, 4, 5]) :=
  ⟨by decide,
   tuple_arity_preservation (fun n => n + 1) (fun n => n * 2) (fun n => n * n)
     [1, 2, 3, 4, 5] 2 (by decide)⟩

/-- A trainable parameter, tagged by which optimizer owns it: generator
side (appearance/motion encoders, warping generators, conv3d, conv2d)
or discriminator side. -/
inductive GParam
  | gen (i : Nat)
  | disc (i : Nat)
deriving DecidableEq

/-- An autograd computation graph over rational values: leaves are data
tensors (ground-truth frames, the all-ones / all-zeros targets, the loss
scale) and parameters; interior nodes are differentiable arithmetic; a
detach node passes the value through but cuts the gradient, exactly as
output.detach() does in train.py line 306. -/
inductive Graph
  | data (v : ℚ)
  | param (p : GParam)
  | add (a b : Graph)
  | mul (a b : Graph)
  | detach (a : Graph)

/-- Forward evaluation under a parameter assignment. -/
def Graph.eval (σ : GParam → ℚ) : Graph → ℚ
  | .data v => v
  | .param p => σ p
  | .add a b => a.eval σ + b.eval σ
  | .mul a b => a.eval σ * b.eval σ
  | .detach a => a.eval σ

/-- Reverse-mode gradient of a graph with respect to one parameter:
detach contributes zero, as autograd records no edge through it. -/
def Graph.grad (σ : GParam → ℚ) (p : GParam) : Graph → ℚ
  | .data _ => 0
  | .param q => if q = p then 1 else 0
  | .add a b => a.grad σ p + b.grad σ p
  | .mul a b => a.grad σ p * b.eval σ + a.eval σ * b.grad σ p
  | .detach _ => 0

/-- A graph is generator-shielded when every generator parameter in it
occurs below a detach node: its value may depend on generator
parameters, but no autograd edge reaches them. -/
def Graph.genShielded : Graph → Bool
  | .data _ => true
  | .param (.gen _) => false
  | .param (.disc _) => true
  | .add a b => a.genShielded && b.genShielded
  | .mul a b => a.genShielded && b.genShielded
  | .detach _ => true

theorem genShielded_grad_zero (e : Graph) (h : e.genShielded = true) (σ : GParam → ℚ)
    (i : Nat) : e.grad σ (.gen i) = 0 := by
  induction e with
  | data v => rfl
  | param p =>
    cases p with
    | gen j => simp [Graph.genShielded] at h
    | disc j => simp [Graph.grad]
  | add a b iha ihb =>
    simp only [Graph.genShielded, Bool.and_eq_true] at h
    simp [Graph.grad, iha h.1, ihb h.2]
  | mul a b iha ihb =>
    simp only [Graph.genShielded, Bool.and_eq_true] at h
    simp [Graph.grad, iha h.1, ihb h.2]
  | detach a iha => rfl

/-- The discriminator objective built in train.py lines 303-307:
real loss from D(target) against an all-ones target, fake loss from
D(output.detach()) against an all-zeros target, averaged; then scaled
by the GradScaler factor before backward (line 309). -/
def d_loss_graph (D : Graph → Graph) (advLoss : Graph → Graph → Graph)
    (target output : Graph) (scale : ℚ) : Graph :=
  let real_loss := advLoss (D target) (.data 1)
  let fake_loss := advLoss (D (.detach output)) (.data 0)
  .mul (.data scale) (.mul (.add real_loss fake_loss) (.data (1 / 2)))

/-- C7: Detach isolation — for any discriminator and adversarial-loss
graphs that build their result from their inputs and
discriminator-side parameters (so they preserve generator-shielding),
any data target, any generator output (which may depend arbitrarily on
generator parameters), any loss scale and parameter assignment, the
discriminator-phase backward pass accumulates exactly zero gradient
onto every generator parameter: generator gradients are unchanged. -/
theorem detach_isolation (D : Graph → Graph) (advLoss : Graph → Graph → Graph)
    (hD : ∀ e : Graph, e.genShielded = true → (D e).genShielded = true)
    (hAdv : ∀ a b : Graph, a.genShielded = true → b.genShielded = true →
      (advLoss a b).genShielded = true)
    (target : Graph) (htarget : target.genShielded = true)
    (output : Graph) (scale : ℚ) (σ : GParam → ℚ) (i : Nat) (g0 : ℚ) :
    g0 + (d_loss_graph D advLoss target output scale).grad σ (.gen i) = g0 := by
  have hshield : (d_loss_graph D advLoss target output scale).genShielded = true := by
    have h1 := hAdv (D target) (.data 1) (hD target htarget) rfl
    have h2 := hAdv (D (.detach output)) (.data 0) (hD (.detach output) rfl) rfl
    simp [d_loss_graph, Graph.genShielded, h1, h2]
  rw [genShielded_grad_zero _ hshield σ i, add_zero]

/-- Witness for C7 with a concrete discriminator, adversarial loss,
data target, generator-dependent output, scale 65536 and a concrete
assignment: a generator gradient buffer holding 7 stays 7. -/
theorem detach_isolation_witness :
    (7 : ℚ) + (d_loss_graph (fun e => Graph.mul e (Graph.param (GParam.disc 0)))
      (fun a b => Graph.add a b) (Graph.data 5)
      (Graph.mul (Graph.param (GParam.gen 0)) (Graph.param (GParam.gen 1)))
      65536).grad (fun _ => 2) (GParam.gen 0) = 7 := by
  have h := detach_isolation (fun e => Graph.mul e (Graph.param (GParam.disc 0)))
    (fun a b => Graph.add a b)
    (fun e he => by simp [Graph.genShielded, he])
    (fun a b ha hb => by simp [Graph.genShielded, ha, hb])
    (Graph.data 5) rfl
    (Graph.mul (Graph.param (GParam.gen 0)) (Graph.param (GParam.gen 1)))
    65536 (fun _ => 2) 0 7
  exact h

inductive ModelType
  | base
  | highres
  | student
deriving DecidableEq

/-- The trainable state of the base variant, as listed in the checkpoint
mapping of train.py lines 405-415: seven weight sets and both optimizer
states. -/
structure BaseState (W O : Type) where
  appearance_encoder : W
  motion_encoder : W
  warping_generator_s : W
  warping_generator_d : W
  conv3d : W
  conv2d : W
  discriminator : W
  optimizer_G : O
  optimizer_D : O
deriving DecidableEq

/-- The trainable state of the highres and student variants (train.py
lines 418-423 and 426-431): one model weight set, the discriminator,
and both optimizer states. -/
structure SmallState (W O : Type) where
  model : W
  discriminator : W
  optimizer_G : O
  optimizer_D : O
deriving DecidableEq

/-- A checkpoint artifact: the mapping save_checkpoint builds — all
weight sets, both optimizer states, and the integer epoch field. -/
inductive Ckpt (W O : Type)
  | base (s : BaseState W O) (epoch : Nat)
  | small (s : SmallState W O) (epoch : Nat)
deriving DecidableEq

/-- The Trainer's persistent fields relevant to checkpointing: the
variant, the per-variant state, and config checkpoint_path. -/
structure Trainer (W O : Type) where
  model_type : ModelType
  baseState : BaseState W O
  smallState : SmallState W O
  checkpoint_path : String
deriving DecidableEq

/-- Modelled from the spec: utils/checkpoint.py is not among the
sources; per the checkpoint artifact layout its save_checkpoint
serializes the given mapping to the given file path (torch.save). -/
def save_checkpoint_file {W O : Type} (fs : Store String (Ckpt W O)) (c : Ckpt W O)
    (path : String) : Store String (Ckpt W O) :=
  fs.put path c

/-- Modelled from the spec: torch.load / utils.checkpoint loading is
external to the sources; it reads the artifact stored at the path and
fails when no artifact exists there. -/
def load_checkpoint_file {W O : Type} (fs : Store String (Ckpt W O)) (path : String) :
    Option (Ckpt W O) :=
  fs.get path

/-- Trainer.save_checkpoint (train.py lines 403-432): write the full
state mapping with the epoch to the per-(variant, epoch) artifact path
`{checkpoint_path}/{variant}_model_epoch_{epoch}.pth`. -/
def Trainer.save_checkpoint {W O : Type} (t : Trainer W O) (epoch : Nat)
    (fs : Store String (Ckpt W O)) : Store String (Ckpt W O) :=
  match t.model_type with
  | .base => save_checkpoint_file fs (.base t.baseState epoch)
      (t.checkpoint_path ++ "/base_model_epoch_" ++ toString epoch ++ ".pth")
  | .highres => save_checkpoint_file fs (.small t.smallState epoch)
      (t.checkpoint_path ++ "/highres_model_epoch_" ++ toString epoch ++ ".pth")
  | .student => save_checkpoint_file fs (.small t.smallState epoch)
      (t.checkpoint_path ++ "/student_model_epoch_" ++ toString epoch ++ ".pth")

/-- Trainer.load_checkpoint (train.py lines 434-461): read the
per-variant latest artifact `{checkpoint_path}/{variant}_model_latest.pth`,
restore every weight set and both optimizer states in place, and return
the stored epoch; a missing artifact or one of the wrong shape fails. -/
def Trainer.load_checkpoint {W O : Type} (t : Trainer W O)
    (fs : Store String (Ckpt W O)) : Option (Trainer W O × Nat) :=
  match t.model_type with
  | .base =>
    match load_checkpoint_file fs (t.checkpoint_path ++ "/base_model_latest.pth") with
    | some (.base s e) => some ({ t with baseState := s }, e)
    | _ => none
  | .highres =>
    match load_checkpoint_file fs (t.checkpoint_path ++ "/highres_model_latest.pth") with
    | some (.small s e) => some ({ t with smallState := s }, e)
    | _ => none
  | .student =>
    match load_checkpoint_file fs (t.checkpoint_path ++ "/student_model_latest.pth") with
    | some (.small s e) => some ({ t with smallState := s }, e)
    | _ => none

/-- The per-(variant, epoch) artifact path that save_checkpoint writes. -/
def epochCkptPath {W O : Type} (t : Trainer W O) (epoch : Nat) : String :=
  match t.model_type with
  | .base => t.checkpoint_path ++ "/base_model_epoch_" ++ toString epoch ++ ".pth"
  | .highres => t.checkpoint_path ++ "/highres_model_epoch_" ++ toString epoch ++ ".pth"
  | .student => t.checkpoint_path ++ "/student_model_epoch_" ++ toString epoch ++ ".pth"

/-- The per-variant latest artifact path that load_checkpoint reads. -/
def latestCkptPath {W O : Type} (t : Trainer W O) : String :=
  match t.model_type with
  | .base => t.checkpoint_path ++ "/base_model_latest.pth"
  | .highres => t.checkpoint_path ++ "/highres_model_latest.pth"
  | .student => t.checkpoint_path ++ "/student_model_latest.pth"

/-- The checkpoint mapping save_checkpoint builds from the trainer's
current state at the given epoch. -/
def ckptOf {W O : Type} (t : Trainer W O) (epoch : Nat) : Ckpt W O :=
  match t.model_type with
  | .base => .base t.baseState epoch
  | .highres => .small t.smallState epoch
  | .student => .small t.smallState epoch

/-- A concrete trainer instance used by concrete evaluations. -/
def trainer0 : Trainer Nat Nat :=
  ⟨ModelType.base, ⟨1, 2, 3, 4, 5, 6, 7, 8, 9⟩, ⟨1, 2, 3, 4⟩, "ckpt"⟩

/-- C4 counterexample: on a fresh checkpoint directory, save(base, 1)
writes only ckpt/base_model_epoch_1.pth, while load(base) reads
ckpt/base_model_latest.pth — so save followed by load fails instead of
restoring the saved state and returning epoch 1. -/
theorem checkpoint_save_then_load_fails :
    trainer0.load_checkpoint (trainer0.save_checkpoint 1 Store.empty) = none := by
  decide

/-- C4 amended: save(variant, E) writes the complete weight/optimizer
mapping with epoch E to the per-(variant, epoch) artifact path, and
load(variant) reads the per-variant latest artifact; whenever the latest
artifact holds the mapping save built (state s, epoch E, the variant's
shape), load restores all weight sets and both optimizer states exactly
as saved and returns E.  The unconditional save-then-load round trip of
the claim fails because save never writes the latest artifact. -/
theorem checkpoint_round_trip_amended {W O : Type} (t : Trainer W O) (epoch : Nat)
    (fs : Store String (Ckpt W O)) :
    ((t.save_checkpoint epoch fs).get (epochCkptPath t epoch) = some (ckptOf t epoch))
    ∧ (∀ fs2 : Store String (Ckpt W O),
        fs2.get (latestCkptPath t) = some (ckptOf t epoch) →
        t.load_checkpoint fs2 = some (t, epoch)) := by
  rcases t with ⟨mt, bs, ss, cp⟩
  cases mt with
  | base =>
    refine ⟨Store.get_put_self _ _ _, ?_⟩
    intro fs2 h
    simp only [Trainer.load_checkpoint, load_checkpoint_file, latestCkptPath] at h ⊢
    rw [h]
    simp only [ckptOf]
  | highres =>
    refine ⟨Store.get_put_self _ _ _, ?_⟩
    intro fs2 h
    simp only [Trainer.load_checkpoint, load_checkpoint_file, latestCkptPath] at h ⊢
    rw [h]
    simp only [ckptOf]
  | student =>
    refine ⟨Store.get_put_self _ _ _, ?_⟩
    intro fs2 h
    simp only [Trainer.load_checkpoint, load_checkpoint_file, latestCkptPath] at h ⊢
    rw [h]
    simp only [ckptOf]

/-- Witness for the amended C4 at the concrete base trainer, epoch 1,
with the latest artifact present and holding the saved mapping. -/
theorem checkpoint_round_trip_amended_witness :
    ((trainer0.save_checkpoint 1 Store.empty).get (epochCkptPath trainer0 1) =
      some (ckptOf trainer0 1))
    ∧ trainer0.load_checkpoint
        (Store.put Store.empty (latestCkptPath trainer0) (ckptOf trainer0 1)) =
      some (trainer0, 1) :=
  ⟨(checkpoint_round_trip_amended trainer0 1 Store.empty).1,
   (checkpoint_round_trip_amended trainer0 1 Store.empty).2
     (Store.put Store.empty (latestCkptPath trainer0) (ckptOf trainer0 1))
     (Store.get_put_self _ _ _)⟩

/-- The resume logic at the top of Trainer.train (train.py lines
144-148): start_epoch is 0, overwritten with the loaded checkpoint's
stored epoch when resume is configured; a failed load propagates. -/
def Trainer.trainStartEpoch {W O : Type} (t : Trainer W O) (resume : Bool)
    (fs : Store String (Ckpt W O)) : Option Nat :=
  if resume then (t.load_checkpoint fs).map (fun r => r.2)
  else some 0

/-- C5: Resume epoch convention — the loop's starting epoch is 0 when
resume is not requested, and when resume succeeds it is exactly the
epoch value stored in the loaded checkpoint (not that value plus one). -/
theorem resume_epoch_convention {W O : Type} (t : Trainer W O)
    (fs : Store String (Ckpt W O)) :
    t.trainStartEpoch false fs = some 0
    ∧ (∀ (t2 : Trainer W O) (e : Nat), t.load_checkpoint fs = some (t2, e) →
        t.trainStartEpoch true fs = some e) := by
  constructor
  · rfl
  · intro t2 e h
    simp [Trainer.trainStartEpoch, h]

/-- Witness for C5: with a latest artifact stored at epoch 3, resuming
starts at epoch 3 itself. -/
theorem resume_epoch_convention_witness :
    trainer0.trainStartEpoch true
      (Store.put Store.empty (latestCkptPath trainer0) (ckptOf trainer0 3)) = some 3 := by
  have hload : trainer0.load_checkpoint
      (Store.put Store.empty (latestCkptPath trainer0) (ckptOf trainer0 3)) =
      some (trainer0, 3) :=
    (checkpoint_round_trip_amended trainer0 3 Store.empty).2
      (Store.put Store.empty (latestCkptPath trainer0) (ckptOf trainer0 3))
      (Store.get_put_self _ _ _)
  exact (resume_epoch_convention trainer0 _).2 trainer0 3 hload

/-- An observable action of the epoch loop body: one training step per
loader batch, then possibly one checkpoint save at the epoch boundary. -/
inductive TrainEvent
  | step (i : Nat)
  | save (epoch : Nat)
deriving DecidableEq

def TrainEvent.isSave : TrainEvent → Bool
  | .save _ => true
  | .step _ => false

/-- One epoch of Trainer.train (train.py lines 149-172): iterate the
loader batches, then call save_checkpoint(epoch + 1) exactly when
(epoch + 1) % checkpoint_interval == 0. -/
def epochEvents (numBatches epoch checkpoint_interval : Nat) : List TrainEvent :=
  ((List.range numBatches).map TrainEvent.step) ++
    (if (epoch + 1) % checkpoint_interval = 0 then [TrainEvent.save (epoch + 1)] else [])

theorem steps_filter_isSave (n : Nat) :
    ((List.range n).map TrainEvent.step).filter TrainEvent.isSave = [] := by
  rw [List.filter_eq_nil_iff]
  intro a ha
  rcases List.mem_map.mp ha with ⟨i, _, rfl⟩
  simp [TrainEvent.isSave]

/-- C9: Checkpoint save timing — at the end of each epoch the Training
Loop calls the checkpoint saver exactly once if (epoch+1) mod
checkpoint_interval is 0 and not at all otherwise; in particular, with
checkpoint_interval = 1 a full epoch calls the saver exactly once. -/
theorem checkpoint_save_timing (n epoch ci : Nat) (hci : 0 < ci) :
    (((epochEvents n epoch ci).filter TrainEvent.isSave).length = 1 ↔
      (epoch + 1) % ci = 0)
    ∧ (((epochEvents n epoch ci).filter TrainEvent.isSave).length = 0 ↔
      ¬(epoch + 1) % ci = 0)
    ∧ ((epochEvents n epoch 1).filter TrainEvent.isSave).length = 1 := by
  have hbase : ∀ (ci2 : Nat), ((epochEvents n epoch ci2).filter TrainEvent.isSave).length =
      if (epoch + 1) % ci2 = 0 then 1 else 0 := by
    intro ci2
    rw [epochEvents, List.filter_append, steps_filter_isSave]
    by_cases hc : (epoch + 1) % ci2 = 0
    · simp [hc, TrainEvent.isSave]
    · simp [hc]
  refine ⟨?_, ?_, ?_⟩
  · rw [hbase ci]
    by_cases hc : (epoch + 1) % ci = 0 <;> simp [hc]
  · rw [hbase ci]
    by_cases hc : (epoch + 1) % ci = 0 <;> simp [hc]
  · rw [hbase 1]
    simp [Nat.mod_one]

/-- Witness for C9: a 4-batch epoch with checkpoint_interval 1 produces
exactly one save call. -/
theorem checkpoint_save_timing_witness :
    (0 : Nat) < 1 ∧ ((epochEvents 4 0 1).filter TrainEvent.isSave).length = 1 :=
  ⟨by decide, (checkpoint_save_timing 4 0 1 (by decide)).2.2⟩

/-- The dataset collaborator as train_base_model reads it (train.py
lines 181-198): the configured root path, the two pair pools, video
decoding, and the optional pixel transform. -/
structure MPDataset (Img : Type) where
  data_path : String
  same_person_pairs : List SampleInfo
  different_person_pairs : List SampleInfo
  load_video : String → List Img
  sample_transform : Option (Img → Img)

/-- Apply the dataset transform when one is configured
(`if self.train_loader.dataset.transform:`). -/
def applyTransform {Img : Type} (tr : Option (Img → Img)) (x : Img) : Img :=
  match tr with
  | some f => f x
  | none => x

/-- What one training step does: either it runs — recording the chosen
pair, the freshly loaded source image and driving frames, and the
result of the downstream encode/loss/update pipeline on them — or it
fails indexing an empty pair pool. -/
inductive StepWork (Img R : Type)
  | ran (pair : SampleInfo) (sourceImage : Img) (drivingFrames : List Img) (result : R)
  | poolIndexError

/-- Trainer.train_base_model (train.py lines 177-319): select the pair
by iteration parity, rebuild source and target from disk via the pair
pools — overwriting the loader-supplied source and target arguments,
which are never read — and run the downstream pipeline (encoders,
chunked runner, losses, both optimizer phases, abstracted as the
black-box pipeline argument) on the rebuilt inputs. -/
def train_base_model {Img R τ : Type} (openImage : String → Img)
    (pipeline : Img → List Img → R) (ds : MPDataset Img)
    (source target : τ) (iteration : Nat) : StepWork Img R :=
  match selectPair ds.same_person_pairs ds.different_person_pairs iteration with
  | none => .poolIndexError
  | some sample_info =>
    let source_path := ds.data_path ++ "/" ++ sample_info.source
    let driving_path := ds.data_path ++ "/" ++ sample_info.driving
    let source_image := applyTransform ds.sample_transform (openImage source_path)
    let driving_frames := (ds.load_video driving_path).map
      (applyTransform ds.sample_transform)
    .ran sample_info source_image driving_frames (pipeline source_image driving_frames)

/-- Trainer.train_high_res_model (train.py lines 325-362): identical
input reconstruction from the pair pools; loader-supplied source and
target are overwritten before any read. -/
def train_high_res_model {Img R τ : Type} (openImage : String → Img)
    (pipeline : Img → List Img → R) (ds : MPDataset Img)
    (source target : τ) (iteration : Nat) : StepWork Img R :=
  match selectPair ds.same_person_pairs ds.different_person_pairs iteration with
  | none => .poolIndexError
  | some sample_info =>
    let source_path := ds.data_path ++ "/" ++ sample_info.source
    let driving_path := ds.data_path ++ "/" ++ sample_info.driving
    let source_image := applyTransform ds.sample_transform (openImage source_path)
    let driving_frames := (ds.load_video driving_path).map
      (applyTransform ds.sample_transform)
    .ran sample_info source_image driving_frames (pipeline source_image driving_frames)

/-- Trainer.train_student_model (train.py lines 365-400): identical
input reconstruction from the pair pools; loader-supplied source and
target are overwritten before any read. -/
def train_student_model {Img R τ : Type} (openImage : String → Img)
    (pipeline : Img → List Img → R) (ds : MPDataset Img)
    (source target : τ) (iteration : Nat) : StepWork Img R :=
  match selectPair ds.same_person_pairs ds.different_person_pairs iteration with
  | none => .poolIndexError
  | some sample_info =>
    let source_path := ds.data_path ++ "/" ++ sample_info.source
    let driving_path := ds.data_path ++ "/" ++ sample_info.driving
    let source_image := applyTransform ds.sample_transform (openImage source_path)
    let driving_frames := (ds.load_video driving_path).map
      (applyTransform ds.sample_transform)
    .ran sample_info source_image driving_frames (pipeline source_image driving_frames)

/-- C10: Noninterference with the loader batch — for every iteration of
every variant, the work the training step performs (pair chosen, images
loaded and encoded, downstream pipeline result) is independent of the
source and target tensors the DataLoader delivered: two runs with
different loader batches but the same iteration index, pair pools and
dataset state produce identical work, because each step rebuilds its
inputs from the pair pools and overwrites the supplied arguments. -/
theorem loader_batch_noninterference {Img R τ : Type} (openImage : String → Img)
    (pipeB pipeH pipeS : Img → List Img → R) (ds : MPDataset Img)
    (iteration : Nat) (s1 t1 s2 t2 : τ) :
    train_base_model openImage pipeB ds s1 t1 iteration =
      train_base_model openImage pipeB ds s2 t2 iteration
    ∧ train_high_res_model openImage pipeH ds s1 t1 iteration =
      train_high_res_model openImage pipeH ds s2 t2 iteration
    ∧ train_student_model openImage pipeS ds s1 t1 iteration =
      train_student_model openImage pipeS ds s2 t2 iteration :=
  ⟨rfl, rfl, rfl⟩

/-- An accelerator-resident intermediate tensor inside the chunk loop:
the chunk it belongs to and its size in frames. -/
structure Resident where
  chunkIdx : Nat
  size : Nat
deriving DecidableEq

/-- Accelerator memory events of the chunk-save loop body (train.py
lines 214-231): allocate the chunk slice, allocate the encoded chunk,
persist to the store (a host-memory copy), then `del target_chunk,
v_d_chunk` followed by empty_cache and gc.collect, which reclaims every
accelerator tensor of that chunk immediately. -/
inductive MemEvent
  | alloc (chunkIdx size : Nat)
  | persist (chunkIdx : Nat)
  | freeChunk (chunkIdx : Nat)
deriving DecidableEq

def applyEvent (res : List Resident) : MemEvent → List Resident
  | .alloc k s => res ++ [⟨k, s⟩]
  | .persist _ => res
  | .freeChunk k => res.filter (fun r => r.chunkIdx ≠ k)

/-- The events of the loop iteration handling chunk k of size s:
target_chunk = target[i:i+chunk_size]; v_d_chunk =
appearance_encoder(target_chunk); save_intermediate(v_d_chunk.cpu(), ...);
del target_chunk, v_d_chunk (plus empty_cache and gc.collect). -/
def chunkEvents (k s : Nat) : List MemEvent :=
  [.alloc k s, .alloc k s, .persist k, .freeChunk k]

/-- Chunk indices paired with chunk sizes, counting from k, mirroring
`i // chunk_size` over `range(0, target.size(0), chunk_size)`. -/
def chunkSizes (k : Nat) : List (List Nat) → List (Nat × Nat)
  | [] => []
  | c :: cl => (k, c.length) :: chunkSizes (k + 1) cl

/-- The full accelerator memory event trace of the chunk-save loop over
a flat frame sequence. -/
def runnerEvents (cs : Nat) (seq : List Nat) : List MemEvent :=
  ((chunkSizes 0 (chunkList cs seq)).map (fun p => chunkEvents p.1 p.2)).flatten

/-- Every intermediate resident set along an event list, starting from
the given one (all states, before and after each event). -/
def statesFrom (res : List Resident) : List MemEvent → List (List Resident)
  | [] => [res]
  | e :: evs => res :: statesFrom (applyEvent res e) evs

/-- Total accelerator-resident intermediate size, in frames. -/
def residentFrames (res : List Resident) : Nat := (res.map Resident.size).sum

theorem statesFrom_mem_append (l1 l2 : List MemEvent) :
    ∀ (res st : List Resident), st ∈ statesFrom res (l1 ++ l2) →
      st ∈ statesFrom res l1 ∨ st ∈ statesFrom (List.foldl applyEvent res l1) l2 := by
  induction l1 with
  | nil =>
    intro res st h
    right
    simpa using h
  | cons e l1 ih =>
    intro res st h
    simp only [List.cons_append, statesFrom, List.mem_cons] at h
    rcases h with rfl | h
    · left
      exact List.mem_cons_self _ _
    · rcases ih (applyEvent res e) st h with h1 | h1
      · left
        exact List.mem_cons_of_mem _ h1
      · right
        simpa [List.foldl_cons] using h1

theorem foldl_chunkEvents (k s : Nat) :
    List.foldl applyEvent [] (chunkEvents k s) = [] := by
  simp [chunkEvents, applyEvent]

theorem mem_statesFrom_chunkEvents (k s : Nat) (st : List Resident)
    (h : st ∈ statesFrom [] (chunkEvents k s)) :
    st = [] ∨ st = [⟨k, s⟩] ∨ st = [⟨k, s⟩, ⟨k, s⟩] := by
  simp only [chunkEvents, statesFrom, applyEvent, List.mem_cons, List.nil_append,
    List.mem_singleton] at h
  rcases h with rfl | rfl | rfl | h
  · left; rfl
  · right; left; rfl
  · right; right; rfl
  · simp at h
    rcases h with rfl | rfl
    · right; right; rfl
    · left
      simp [List.filter]

/-- Any resident-set state reached while processing a list of chunk
blocks is empty or consists of one or two copies of a single listed
chunk's tensor. -/
theorem runner_state_shape (pairs : List (Nat × Nat)) :
    ∀ st ∈ statesFrom [] ((pairs.map (fun p => chunkEvents p.1 p.2)).flatten),
      st = [] ∨ ∃ p ∈ pairs, st = [⟨p.1, p.2⟩] ∨ st = [⟨p.1, p.2⟩, ⟨p.1, p.2⟩] := by
  induction pairs with
  | nil =>
    intro st h
    left
    simpa [statesFrom] using h
  | cons p rest ih =>
    intro st h
    rw [List.map_cons, List.flatten_cons] at h
    rcases statesFrom_mem_append _ _ _ _ h with h1 | h1
    · rcases mem_statesFrom_chunkEvents p.1 p.2 st h1 with h2 | h2 | h2
      · left; exact h2
      · right; exact ⟨p, List.mem_cons_self _ _, Or.inl h2⟩
      · right; exact ⟨p, List.mem_cons_self _ _, Or.inr h2⟩
    · rw [foldl_chunkEvents] at h1
      rcases ih st h1 with h2 | ⟨q, hq, h3⟩
      · left; exact h2
      · right; exact ⟨q, List.mem_cons_of_mem _ hq, h3⟩

/-- Processing any prefix of chunk blocks from an empty resident set
ends with an empty resident set. -/
theorem foldl_blocks_empty (pairs : List (Nat × Nat)) :
    List.foldl applyEvent [] ((pairs.map (fun p => chunkEvents p.1 p.2)).flatten) = [] := by
  induction pairs with
  | nil => rfl
  | cons p rest ih =>
    rw [List.map_cons, List.flatten_cons, List.foldl_append, foldl_chunkEvents]
    exact ih

theorem chunkList_length_le {α : Type} (cs : Nat) (l : List α) :
    ∀ c ∈ chunkList cs l, c.length ≤ cs := by
  have H : ∀ (n : Nat) (l : List α), l.length = n → ∀ c ∈ chunkList cs l, c.length ≤ cs := by
    intro n
    induction n using Nat.strong_induction_on with
    | _ n ih =>
      intro l hl c hc
      rw [chunkList] at hc
      by_cases h1 : cs = 0
      · rw [dif_pos h1] at hc
        simp at hc
      · rw [dif_neg h1] at hc
        by_cases h2 : l.isEmpty
        · rw [dif_pos h2] at hc
          simp at hc
        · rw [dif_neg h2] at hc
          have hlpos : 0 < l.length := by
            cases l with
            | nil => simp at h2
            | cons a t => simp
          rcases List.mem_cons.mp hc with hc1 | hc2
          · rw [hc1]
            calc (l.take cs).length = min cs l.length := List.length_take cs l
              _ ≤ cs := Nat.min_le_left _ _
          · have hlt : (l.drop cs).length < n := by
              simp only [List.length_drop]
              omega
            exact ih (l.drop cs).length (by omega) (l.drop cs) rfl c hc2
  exact H l.length l rfl

theorem chunkSizes_size_le (cs : Nat) :
    ∀ (cl : List (List Nat)), (∀ c ∈ cl, c.length ≤ cs) →
      ∀ (k : Nat), ∀ p ∈ chunkSizes k cl, p.2 ≤ cs := by
  intro cl
  induction cl with
  | nil => intro _ k p hp; simp [chunkSizes] at hp
  | cons c cl ih =>
    intro hall k p hp
    simp only [chunkSizes, List.mem_cons] at hp
    rcases hp with rfl | hp
    · exact hall c (List.mem_cons_self _ _)
    · exact ih (fun d hd => hall d (List.mem_cons_of_mem _ hd)) (k + 1) p hp

/-- C3: Bounded peak accelerator memory — for every frame sequence and
every positive chunk_size, along the whole chunk-save loop trace (i) the
resident intermediate size never exceeds 2 * chunk_size frames (the
current slice plus its encoded output), independent of the sequence
length; (ii) every state holds tensors of at most one chunk, so no
tensor from a completed chunk coexists with a later chunk's tensors;
and (iii) after any prefix of whole chunk iterations — each ending at
its persistence-and-delete point — the resident set is empty. -/
theorem bounded_peak_memory (seq : List Nat) (cs : Nat) (hcs : 0 < cs) :
    (∀ st ∈ statesFrom [] (runnerEvents cs seq), residentFrames st ≤ 2 * cs)
    ∧ (∀ st ∈ statesFrom [] (runnerEvents cs seq),
        ∀ r1 ∈ st, ∀ r2 ∈ st, r1.chunkIdx = r2.chunkIdx)
    ∧ (∀ k : Nat, List.foldl applyEvent []
        ((((chunkSizes 0 (chunkList cs seq)).take k).map
          (fun p => chunkEvents p.1 p.2)).flatten) = []) := by
  have hsizes : ∀ p ∈ chunkSizes 0 (chunkList cs seq), p.2 ≤ cs :=
    chunkSizes_size_le cs (chunkList cs seq) (chunkList_length_le cs seq) 0
  refine ⟨?_, ?_, ?_⟩
  · intro st hst
    rcases runner_state_shape (chunkSizes 0 (chunkList cs seq)) st hst with rfl | ⟨p, hp, h3⟩
    · simp [residentFrames]
    · have hps : p.2 ≤ cs := hsizes p hp
      rcases h3 with rfl | rfl
      · simp only [residentFrames, List.map_cons, List.map_nil, List.sum_cons, List.sum_nil]
        omega
      · simp only [residentFrames, List.map_cons, List.map_nil, List.sum_cons, List.sum_nil]
        omega
  · intro st hst r1 h1 r2 h2
    rcases runner_state_shape (chunkSizes 0 (chunkList cs seq)) st hst with rfl | ⟨p, _, h3⟩
    · simp at h1
    · rcases h3 with rfl | rfl
      · simp only [List.mem_singleton] at h1 h2
        rw [h1, h2]
      · simp only [List.mem_cons, List.not_mem_nil, or_false] at h1 h2
        rcases h1 with rfl | rfl <;> rcases h2 with h2 | h2 <;> rw [h2]
  · intro k
    exact foldl_blocks_empty ((chunkSizes 0 (chunkList cs seq)).take k)

/-- Witness for C3: a five-frame sequence with chunk_size 2; the peak
state — both tensors of a chunk resident just before persistence — obeys
the bound. -/
theorem bounded_peak_memory_witness :
    (0 : Nat) < 2 ∧ residentFrames [⟨0, 2⟩, ⟨0, 2⟩] ≤ 2 * 2 := by
  refine ⟨by decide, ?_⟩
  apply (bounded_peak_memory [10, 11, 12, 13, 14] 2 (by decide)).1
  have hchunk : chunkList 2 [10, 11, 12, 13, 14] = [[10, 11], [12, 13], [14]] := by
    rw [chunkList]
    norm_num
    rw [chunkList]
    norm_num
    rw [chunkList]
    norm_num
    rw [chunkList]
    norm_num
  rw [runnerEvents, hchunk]
  decide
